import Mathlib

/-!
Verification of the FakeHuman strategic decision layer of OpenFrontIO.

This file gives a shallow embedding, in Lean, of the decision algorithms of
the repository's `FakeHuman` AI agent: the per-tick coordinator, the economy,
diplomacy, military and strategic-strike (MIRV) advisors and their supporting
utilities (territory sampling, nuke-tile selection, adaptive gold reserve).
Machine numbers are embedded as `Nat`, `Int` and `Rat` (gold is a JavaScript
BigInt in the source, heuristic scores are JavaScript numbers; the heuristic
arithmetic is embedded over `Rat`).  Stateful code is embedded as explicit
state passing; the game engine and the pseudo-random collaborator are
consumed through oracle parameters, mirroring the narrow interfaces the
source consumes.

Theorems at the end of the file settle the behavioural properties of the
decision layer against this embedding.
-/

namespace OpenFront

/-! ## Diplomacy: embargo relationship penalty
Embedding of `DiplomacyAdvisor.updateRelationsFromEmbargos`
(the same loop body appears in `FakeHumanExecution.updateRelationsFromEmbargos`
and `DiplomacyStrategy.updateRelationsFromEmbargos`).  For one opponent the
advisor keeps a ledger flag recording whether the -20 embargo penalty is
currently applied.  The state for one opponent is the pair
(relation value, penalty-recorded flag); the result also carries the list of
relationship deltas passed to `player.updateRelation` during the call. -/

/-- State of the embargo-penalty ledger for a single opponent:
`relation` is the agent's relation value toward that opponent and
`applied` records whether the -20 embargo malus is currently applied. -/
structure EmbargoState where
  relation : ℤ
  applied : Bool
  deriving Repr, DecidableEq

/-- One pass of `updateRelationsFromEmbargos` for a single opponent whose
embargo-against-the-agent status is `hasEmbargo`.  Mirrors the source:
if the opponent embargoes the agent and no malus is recorded, apply the
-20 delta and record it; if the embargo lifted and a malus is recorded,
reverse the delta and clear the record; otherwise do nothing.
The second component lists the deltas passed to `updateRelation`. -/
def updateRelationsFromEmbargos (hasEmbargo : Bool) (s : EmbargoState) :
    EmbargoState × List ℤ :=
  if hasEmbargo ∧ ¬s.applied then
    (⟨s.relation + (-20), true⟩, [(-20)])
  else if ¬hasEmbargo ∧ s.applied then
    (⟨s.relation - (-20), false⟩, [20])
  else
    (s, [])

/-! ## MIRV reserve: spendable gold
Embedding of `MIRVAdvisor.getSpendableGold` (identical in
`FakeHumanExecution.getSpendableGold`). -/

/-- `MIRVAdvisor.getSpendableGold`: gold available for ordinary spending once
the MIRV reserve threshold is withheld. -/
def getSpendableGold (totalGold reserveThreshold : ℤ) : ℤ :=
  if totalGold ≤ reserveThreshold then 0 else totalGold - reserveThreshold

/-! ## Territory sampling
Embedding of `arraySampler` from
`src/core/execution/fakehuman/utils/utils.ts` (the same generator appears as
`FakeHumanExecution.arraySampler`).  The JavaScript `new Set<T>(a)` keeps the
first occurrence of each element in insertion order; `jsSetOf` mirrors that.
`PseudoRandom.randFromSet` is repository code that is not part of the sampled
sources; `randFromSet` below is modelled from the spec. -/

/-- First-occurrence deduplication, the contents of `new Set<T>(a)` in
iteration order. -/
def jsSetOf {α : Type} [DecidableEq α] : List α → List α
  | [] => []
  | a :: l => a :: (jsSetOf l).filter (fun x => x ≠ a)

/-- Modelled from the spec: `PseudoRandom.randFromSet` (uniform set-element
selection consumed from the pseudo-random collaborator, §6) is not among the
sampled sources.  The random draw is modelled by an index oracle reduced
modulo the set size; selection from an empty set is unspecified in the spec
and is modelled as `none`. -/
def randFromSet {α : Type} (idx : ℕ) (s : List α) : Option α :=
  s.get? (idx % s.length)

/-- The sampling loop of `arraySampler` in the `array.length > sampleSize`
branch: draw `k` elements without replacement from `remaining`, consuming one
index from the oracle `rand` per draw.  Returns `none` if the collaborator is
ever invoked on an empty set. -/
def sampleLoop {α : Type} [DecidableEq α] (rand : ℕ → ℕ) :
    ℕ → ℕ → List α → Option (List α)
  | _, 0, _ => some []
  | step, k + 1, remaining =>
    match randFromSet (rand step) remaining with
    | none => none
    | some t => (sampleLoop rand (step + 1) k (remaining.erase t)).map (t :: ·)

/-- `arraySampler`: if the array has at most `sampleSize` elements, yield the
array itself; otherwise sample `sampleSize` elements without replacement from
the set of the array's elements. -/
def arraySampler {α : Type} [DecidableEq α] (rand : ℕ → ℕ) (a : List α)
    (sampleSize : ℕ) : Option (List α) :=
  if a.length ≤ sampleSize then some a
  else sampleLoop rand 0 sampleSize (jsSetOf a)

/-! ## MIRV advisor: strike memory and cooldown
Embedding of `MIRVAdvisor.recommend`, `removeOldMIRVEvents`,
`triggerMIRVCooldown` and `sendMIRV`.  The strike memory `lastMIRVSent` is a
queue of `(tick, tile)` pairs; tiles are abstract references (`ℕ`). -/

/-- `MIRVAdvisor.MIRV_COOLDOWN_TICKS`. -/
def MIRV_COOLDOWN_TICKS : ℕ := 600

/-- `MIRVAdvisor.removeOldMIRVEvents`: shift entries from the front of
`lastMIRVSent` while the front entry is at least `MIRV_COOLDOWN_TICKS` old. -/
def removeOldMIRVEvents (tick : ℕ) (q : List (ℕ × ℕ)) : List (ℕ × ℕ) :=
  q.dropWhile (fun e => e.1 + MIRV_COOLDOWN_TICKS ≤ tick)

/-- `MIRVAdvisor.triggerMIRVCooldown`: evict old events, then record the
current tick (with the strike tile, or a fallback tile of the player's
territory) at the back of the queue. -/
def triggerMIRVCooldown (tick : ℕ) (cooldownTile : ℕ) (q : List (ℕ × ℕ)) :
    List (ℕ × ℕ) :=
  removeOldMIRVEvents tick q ++ [(tick, cooldownTile)]

/-- The game-state and random-draw inputs consumed by one call to
`MIRVAdvisor.recommend`.  `hasSilo` is `player.units(MissileSilo).length > 0`;
`goldOk` is `player.gold() ≥ cost(MIRV)`; `hesitation` is the outcome of
`random.chance(MIRV_HESITATION_ODDS)`; `counter`, `victory` and `steamroll`
are the three target-selection heuristics' results (target player ids);
`targetTile` resolves a target player to the strike tile chosen by
`createMIRVRecommendation` (territory centre if buildable, else the first
buildable owned tile, else none); `cooldownTile` is the fallback tile used by
`triggerMIRVCooldown`. -/
structure MIRVQuery where
  tick : ℕ
  hasSilo : Bool
  goldOk : Bool
  hesitation : Bool
  counter : Option ℕ
  victory : Option ℕ
  steamroll : Option ℕ
  targetTile : ℕ → Option ℕ
  cooldownTile : ℕ

/-- `MIRVAdvisor.recommend`: returns the recommended strike tile (if any)
together with the updated `lastMIRVSent` queue.  The queue push performed by
`sendMIRV` happens only when the recommendation is later executed, so a
returned recommendation leaves the queue untouched here. -/
def recommendMIRV (inp : MIRVQuery) (q : List (ℕ × ℕ)) :
    Option ℕ × List (ℕ × ℕ) :=
  if ¬inp.hasSilo then (none, q)
  else if ¬inp.goldOk then (none, q)
  else
    let q1 := removeOldMIRVEvents inp.tick q
    if q1 ≠ [] then (none, q1)
    else if inp.hesitation then (none, triggerMIRVCooldown inp.tick inp.cooldownTile q1)
    else
      match inp.counter with
      | some t => (inp.targetTile t, q1)
      | none =>
        match inp.victory with
        | some t => (inp.targetTile t, q1)
        | none =>
          match inp.steamroll with
          | some t => (inp.targetTile t, q1)
          | none => (none, q1)

/-- Fold a sequence of queries through `recommendMIRV`, collecting each
query's recommendation. -/
def recommendMIRVMany (inps : List MIRVQuery) (q : List (ℕ × ℕ)) :
    List (Option ℕ) :=
  match inps with
  | [] => []
  | i :: rest =>
    let r := recommendMIRV i q
    r.1 :: recommendMIRVMany rest r.2

/-! ## MIRV advisor: victory-denial target selection
Embedding of `MIRVAdvisor.selectVictoryDenialTarget` (identical logic in
`FakeHumanExecution.selectVictoryDenialTarget`).  Players are embedded as
records of the fields the selection reads. -/

/-- The player-state fields read by the MIRV targeting heuristics.
`isPlayer` is `p.isPlayer()`, `isBot` is `p.type() === PlayerType.Bot`,
`team` is `p.team()` and `tiles` is `p.numTilesOwned()`. -/
structure VPlayer where
  id : ℕ
  isPlayer : Bool
  isBot : Bool
  team : Option ℕ
  tiles : ℕ
  deriving Repr, DecidableEq

/-- `MIRVAdvisor.getValidMirvTargetPlayers` (without the 2-second cache,
which only memoises this filter): every player other than the agent that is a
real player, not a bot, and not on the agent's team.  `sameTeam a p` embeds
`player.isOnSameTeam(p)`. -/
def getValidMirvTargetPlayers (players : List VPlayer) (agentId : ℕ)
    (agentTeam : Option ℕ) : List VPlayer :=
  players.filter (fun p =>
    p.id ≠ agentId ∧ p.isPlayer ∧ ¬p.isBot ∧
      ¬(agentTeam ≠ none ∧ p.team = agentTeam))

/-- The `largestMember` scan of `selectVictoryDenialTarget`: left-to-right
scan keeping the first member whose tile count strictly exceeds the running
maximum (`largestTiles` starts at -1, so the first member always enters;
later members replace it only on a strict increase, so ties keep the earlier
member). -/
def largestScan (members : List VPlayer) : Option VPlayer :=
  members.foldl
    (fun acc m =>
      match acc with
      | none => some m
      | some b => if (m.tiles : ℤ) > b.tiles then some m else some b)
    none

/-- The `severity` computed by `selectVictoryDenialTarget` for candidate `p`:
for a teamed player, the team's combined territory share when it is at least
the 0.8 team threshold and `p` is the scanned largest member, else 0; for a
non-teamed player, the player's own share when at least the 0.65 individual
threshold, else 0. -/
def victoryDenialSeverity (players : List VPlayer) (totalLand : ℕ)
    (p : VPlayer) : ℚ :=
  match p.team with
  | some tm =>
    let teamMembers := players.filter (fun x => x.team = some tm ∧ x.isPlayer)
    let teamTerritory : ℕ := (teamMembers.map (fun x => x.tiles)).sum
    let teamShare : ℚ := (teamTerritory : ℚ) / (totalLand : ℚ)
    if teamShare ≥ 8 / 10 then
      if largestScan teamMembers = some p then teamShare else 0
    else 0
  | none =>
    let share : ℚ := (p.tiles : ℚ) / (totalLand : ℚ)
    if share ≥ 65 / 100 then share else 0

/-- `MIRVAdvisor.selectVictoryDenialTarget`: among valid targets, the one of
maximal strictly positive severity (first found wins ties). -/
def selectVictoryDenialTarget (players : List VPlayer) (agentId : ℕ)
    (agentTeam : Option ℕ) (totalLand : ℕ) : Option VPlayer :=
  if totalLand = 0 then none
  else
    (getValidMirvTargetPlayers players agentId agentTeam).foldl
      (fun best p =>
        let severity := victoryDenialSeverity players totalLand p
        if severity > 0 then
          match best with
          | none => some (p, severity)
          | some b => if severity > b.2 then some (p, severity) else some b
        else best)
      none
    |>.map (fun b => b.1)

/-! ## MIRV advisor: adaptive gold reserve
Embedding of `MIRVAdvisor.getMIRVReserveThreshold` (identical logic in
`FakeHumanExecution.getMIRVReserveThreshold`).  The source reads the gold
balances of all other live players into a JavaScript number array, sorts it
descending, and combines several benchmarks; the numeric work is embedded
over `Rat`.  Each source local constant becomes a definition below, applied
to the list `golds` of the other players' gold balances. -/

/-- Single step of the descending insertion corresponding to
`sort((a, b) => b - a)`. -/
def insertDesc (x : ℚ) : List ℚ → List ℚ
  | [] => [x]
  | a :: l => if x ≥ a then x :: a :: l else a :: insertDesc x l

/-- Descending sort of the gold levels, `otherGoldLevels.sort((a, b) => b - a)`. -/
def sortDesc (l : List ℚ) : List ℚ := l.foldr insertDesc []

/-- The source's `maxOtherGold`: head of the descending-sorted gold levels. -/
def maxOtherGold (golds : List ℚ) : ℚ := (sortDesc golds).headI

/-- The source's `avgOtherGold`. -/
def avgOtherGold (golds : List ℚ) : ℚ := golds.sum / (golds.length : ℚ)

/-- The source's `top3Count`: `Math.min(3, sortedGoldLevels.length)`. -/
def top3Count (golds : List ℚ) : ℕ := min 3 (sortDesc golds).length

/-- The source's `top3Avg`: average of the top `top3Count` gold levels. -/
def top3Avg (golds : List ℚ) : ℚ :=
  ((sortDesc golds).take 3).sum / (top3Count golds : ℚ)

/-- The source's `weightedBenchmark`: 60% top-3 average, 40% overall average. -/
def weightedBenchmark (golds : List ℚ) : ℚ :=
  top3Avg golds * (6 / 10) + avgOtherGold golds * (4 / 10)

/-- The source's `topGapRatio`: relative lead of the richest opponent over
the weighted benchmark (0 when the benchmark is not positive). -/
def topGapRatio (golds : List ℚ) : ℚ :=
  if weightedBenchmark golds > 0 then
    (maxOtherGold golds - weightedBenchmark golds) / weightedBenchmark golds
  else 0

/-- The source's `levelRatio`: weighted benchmark normalised to the 20M
baseline. -/
def levelRatio (golds : List ℚ) : ℚ := weightedBenchmark golds / 20000000

/-- Factor 1 of the source's `competitiveMultiplier`: escalation by how far
ahead the richest opponent is of the weighted benchmark. -/
def gapMultiplier (r : ℚ) : ℚ :=
  if r > 6 / 10 then 13 / 10
  else if r > 3 / 10 then 12 / 10
  else if r > 1 / 10 then 11 / 10
  else 1

/-- Factor 2 of the source's `competitiveMultiplier`: escalation by the
overall economic level (`competitiveMultiplier = Math.max(...)` updates). -/
def levelAdjust (lr m : ℚ) : ℚ :=
  if lr > 15 / 10 then max m (12 / 10)
  else if lr > 1 then max m (11 / 10)
  else m

/-- Factor 3 of the source's `competitiveMultiplier`: escalation by
MIRV-capability pressure from the richest opponent or the top-3 average. -/
def capabilityAdjust (maxG t3 m : ℚ) : ℚ :=
  if maxG ≥ 25000000 then max m (14 / 10)
  else if t3 ≥ 20000000 then max m (12 / 10)
  else m

/-- The source's `competitiveMultiplier` after the three escalation factors:
top-player gap, overall economic level, and MIRV-capability pressure. -/
def competitiveMultiplier (golds : List ℚ) : ℚ :=
  capabilityAdjust (maxOtherGold golds) (top3Avg golds)
    (levelAdjust (levelRatio golds) (gapMultiplier (topGapRatio golds)))

/-- The source's `competitiveThreshold`: the base 35M floor, the multiplied
benchmark, and the 0.7-of-richest safety net. -/
def competitiveThreshold (golds : List ℚ) : ℚ :=
  max 35000000 (max (weightedBenchmark golds * competitiveMultiplier golds)
    (maxOtherGold golds * (7 / 10)))

/-- The numeric part of `getMIRVReserveThreshold` once at least one other
live player exists: the competitive threshold capped at
`MIRV_RESERVE_TARGET * 1.5 = 60M`. -/
def reserveFinalThreshold (golds : List ℚ) : ℚ :=
  min (competitiveThreshold golds) (40000000 * (15 / 10))

/-- `MIRVAdvisor.getMIRVReserveThreshold`: zero without a missile silo
(`shouldMaintainMIRVReserve`), the 35M floor with no other live players, and
otherwise the floor of the competitive threshold (`BigInt(Math.floor(...))`).
`golds` lists the gold balances of the other live players. -/
def getMIRVReserveThreshold (hasSilo : Bool) (golds : List ℚ) : ℤ :=
  if ¬hasSilo then 0
  else if golds = [] then 35000000
  else ⌊reserveFinalThreshold golds⌋

/-! ## Coordinator
Embedding of `FakeHumanCoordinator.tick`.  The coordinator's private state
consists of the lifecycle flags; the game state consumed during one tick is
an oracle record.  Effects submitted to the engine during the tick are
collected in a list. -/

/-- Which advisor produced an executed recommendation. -/
inductive AdvisorTag where
  | diplomacy
  | economy
  | mirv
  | military
  deriving Repr, DecidableEq

/-- Observable effects of one coordinator tick: a spawn submission, the
forced first attack, the `BotBehavior` alliance-handling calls, or the
execution of an advisor's recommendation. -/
inductive Effect where
  | spawn (tile : ℕ)
  | forceAttack
  | handleAllianceRequests
  | handleAllianceExtensionRequests
  | execRec (a : AdvisorTag)
  deriving Repr, DecidableEq

/-- Coordinator lifecycle state: `active` mirrors the `active` field,
`playerBound` whether `this.player` has been resolved, `behaviorInit`
whether the shared `BotBehavior` has been constructed. -/
structure CoordState where
  active : Bool
  playerBound : Bool
  behaviorInit : Bool
  deriving Repr, DecidableEq

/-- Game-state inputs consumed by one call to `FakeHumanCoordinator.tick`:
the spawn-phase flag, the result of `randomSpawnLand()`, whether the
controlled player is found among live players, whether it is alive, and the
four advisors' recommendations (`true` when `recommend()` is non-null). -/
structure CoordInput where
  inSpawnPhase : Bool
  spawnLand : Option ℕ
  playerFound : Bool
  playerAlive : Bool
  diplomacyRec : Bool
  economyRec : Bool
  mirvRec : Bool
  militaryRec : Bool
  deriving Repr, DecidableEq

/-- Helper for the advisor loop: the (at most one) execution effect of a
single advisor query. -/
def advisorEffect (tag : AdvisorTag) (rec : Bool) : List Effect :=
  if rec then [Effect.execRec tag] else []

/-- `FakeHumanCoordinator.tick`: cadence gate, spawn phase, lazy player
binding, death check, one-off `BotBehavior` construction with the forced
first attack, then the advisor loop in the fixed order diplomacy (followed by
the alliance-handling calls), economy, MIRV, military — executing each
non-null recommendation immediately. -/
def coordTick (attackRate attackTick : ℕ) (s : CoordState) (ticks : ℕ)
    (inp : CoordInput) : CoordState × List Effect :=
  if ticks % attackRate ≠ attackTick then (s, [])
  else if inp.inSpawnPhase then
    match inp.spawnLand with
    | none => (s, [])
    | some tile => (s, [Effect.spawn tile])
  else if ¬s.playerBound ∧ ¬inp.playerFound then (s, [])
  else
    let s1 : CoordState := { s with playerBound := true }
    if ¬inp.playerAlive then ({ s1 with active := false }, [])
    else if ¬s1.behaviorInit then
      ({ s1 with behaviorInit := true }, [Effect.forceAttack])
    else
      (s1,
        advisorEffect AdvisorTag.diplomacy inp.diplomacyRec ++
          [Effect.handleAllianceRequests, Effect.handleAllianceExtensionRequests] ++
          advisorEffect AdvisorTag.economy inp.economyRec ++
          advisorEffect AdvisorTag.mirv inp.mirvRec ++
          advisorEffect AdvisorTag.military inp.militaryRec)

/-- The advisor-recommendation executions among a tick's effects. -/
def executedRecs (effects : List Effect) : List AdvisorTag :=
  effects.filterMap (fun e =>
    match e with
    | Effect.execRec a => some a
    | _ => none)

/-! ## Monolithic agent
Embedding of `FakeHumanExecution.tick` (the pre-refactor agent).  After the
shared lifecycle prologue the body calls, in order,
`updateRelationsFromEmbargos`, the two alliance handlers, `handleUnits`,
`handleEmbargoesToHostileNations`, `considerMIRV` and `maybeAttack`; those
six calls' engine submissions are consumed as oracle effect lists. -/

/-- Game-state inputs of one `FakeHumanExecution.tick` call.  The six
post-prologue phases' submissions are oracles (`List ℕ` of opaque execution
ids). -/
structure FHInput where
  inSpawnPhase : Bool
  spawnLand : Option ℕ
  playerFound : Bool
  playerAlive : Bool
  relationEffects : List ℕ
  allianceEffects : List ℕ
  unitEffects : List ℕ
  embargoEffects : List ℕ
  mirvEffects : List ℕ
  attackEffects : List ℕ
  deriving Repr, DecidableEq

/-- `FakeHumanExecution.tick`: same cadence gate and lifecycle prologue as
the coordinator, then the six body phases in order.  The spawn submission is
modelled as execution id 0 and the forced first attack as id 1. -/
def fakeHumanTick (attackRate attackTick : ℕ) (s : CoordState) (ticks : ℕ)
    (inp : FHInput) : CoordState × List ℕ :=
  if ticks % attackRate ≠ attackTick then (s, [])
  else if inp.inSpawnPhase then
    match inp.spawnLand with
    | none => (s, [])
    | some _ => (s, [0])
  else if ¬s.playerBound ∧ ¬inp.playerFound then (s, [])
  else
    let s1 : CoordState := { s with playerBound := true }
    if ¬inp.playerAlive then ({ s1 with active := false }, [])
    else if ¬s1.behaviorInit then ({ s1 with behaviorInit := true }, [1])
    else
      (s1,
        inp.relationEffects ++ inp.allianceEffects ++ inp.unitEffects ++
          inp.embargoEffects ++ inp.mirvEffects ++ inp.attackEffects)

/-! ## Conventional nuclear strike: tile selection
Embedding of `FakeHumanExecution.maybeSendNuke` / `nukeTileScore` (the same
loop appears in `MilitaryAdvisor.findBestNukeTarget` and
`NukeStrategy.considerNuke`).  Tiles are map coordinates.  The tile score is
consumed as an oracle `score` (its computation mixes structure values with a
Euclidean-distance penalty); the selection loop's use of it — initial best
value 0 and strictly-greater replacement — is embedded exactly. -/

/-- A map tile, as an `(x, y)` coordinate pair. -/
abbrev Tile := ℤ × ℤ

/-- The game-state oracle consumed by the nuke tile selection: map bounds,
tile ownership (player small id), buildability of the nuke at a tile, and
the tile score `nukeTileScore`. -/
structure NukeGame where
  width : ℤ
  height : ℤ
  owner : Tile → ℕ
  canBuild : Tile → Bool
  score : Tile → ℚ

/-- `isValidCoord`: the coordinate is on the map. -/
def isValidTile (g : NukeGame) (t : Tile) : Bool :=
  0 ≤ t.1 ∧ t.1 < g.width ∧ 0 ≤ t.2 ∧ t.2 < g.height

/-- The coordinates from `c - r` to `c + r`. -/
def boxCoords (c : ℤ) (r : ℕ) : List ℤ :=
  (List.range (2 * r + 1)).map (fun i : ℕ => c - (r : ℤ) + (i : ℤ))

/-- Modelled from the spec: `boundingBoxTiles` (src/core/Util.ts) is not
among the sampled sources.  Following §4.1/§4.2 — damage footprints are
checked over the axis-aligned bounding box of the given radius around the
candidate — it is modelled as all on-map tiles whose `x` and `y` both lie
within `r` of the centre. -/
def boundingBoxTiles (g : NukeGame) (t : Tile) (r : ℕ) : List Tile :=
  ((boxCoords t.1 r).product (boxCoords t.2 r)).filter (fun u => isValidTile g u)

/-- The footprint checked by `maybeSendNuke` for one candidate: the bounding
box at the full radius concatenated with the bounding box at half the radius
(`Math.floor(range / 2)`). -/
def footprintBoxes (g : NukeGame) (t : Tile) (r : ℕ) : List Tile :=
  boundingBoxTiles g t r ++ boundingBoxTiles g t (r / 2)

/-- The `continue outer` admissibility test of `maybeSendNuke`: every tile of
the candidate's footprint is owned by the intended target. -/
def nukeFootprintOk (g : NukeGame) (target : ℕ) (r : ℕ) (tile : Tile) : Bool :=
  (footprintBoxes g tile r).all (fun u => g.owner u == target)

/-- The candidate loop of `maybeSendNuke`: skip candidates failing the
footprint-ownership test or `canBuild`; otherwise keep the candidate iff its
score strictly exceeds the running best value, which starts at 0. -/
def findBestNukeTile (g : NukeGame) (target : ℕ) (r : ℕ) (cands : List Tile) :
    Option Tile :=
  (cands.foldl
    (fun acc tile =>
      if ¬nukeFootprintOk g target r tile then acc
      else if ¬g.canBuild tile then acc
      else if g.score tile > acc.2 then (some tile, g.score tile) else acc)
    ((none : Option Tile), (0 : ℚ))).1

/-- The guard inputs of `maybeSendNuke`: silo ownership, affordability of the
atom bomb, the target's bot flag and team relation, whether gold strictly
exceeds the hydrogen-bomb cost (selecting the weapon and its radius 60 vs
15), and the deduplicated candidate tiles (random territory sample plus the
target's structure tiles). -/
structure NukeDecisionInput where
  hasSilo : Bool
  goldAtomOk : Bool
  targetIsBot : Bool
  sameTeam : Bool
  goldGtHydrogenCost : Bool
  cands : List Tile

/-- `FakeHumanExecution.maybeSendNuke`: abort on the guards, pick the weapon
tier by gold, and launch at the best admissible candidate if one was
selected.  Returns the strike tile and weapon tier (`true` = hydrogen). -/
def maybeSendNuke (g : NukeGame) (target : ℕ) (inp : NukeDecisionInput) :
    Option (Tile × Bool) :=
  if ¬inp.hasSilo ∨ ¬inp.goldAtomOk ∨ inp.targetIsBot ∨ inp.sameTeam then none
  else
    (findBestNukeTile g target (if inp.goldGtHydrogenCost then 60 else 15)
        inp.cands).map
      (fun t => (t, inp.goldGtHydrogenCost))

/-! ## Economy advisor
Embedding of `EconomyAdvisor.recommendStructure` and `recommendWarship`.
The tile search (`structureSpawnTile` / `warshipSpawnTile`) and the engine's
`canBuild` confirmation are consumed as oracles. -/

/-- `EconomyAdvisor.recommendStructure` for one structure type: perceived
cost is the real cost times the count-dependent multiplier evaluated at
`owned + 1`; the affordability check compares the player's full gold balance
against the perceived cost; then a spawn tile must exist and the engine must
confirm buildability.  Returns the recommended build tile. -/
def recommendStructure (gold realCost : ℤ) (owned : ℕ) (multiplier : ℕ → ℕ)
    (spawnTile : Option ℕ) (canBuild : Bool) : Option ℕ :=
  let perceivedCost := realCost * (multiplier (owned + 1) : ℤ)
  if gold < perceivedCost then none
  else
    match spawnTile with
    | none => none
    | some t => if ¬canBuild then none else some t

/-- `EconomyAdvisor.recommendWarship`: gated by a random chance draw, then
requires at least one port, zero warships, and gold strictly above the
warship cost; the affordability check again uses the full gold balance. -/
def recommendWarship (chancePassed : Bool) (ports warships : ℕ)
    (gold warshipCost : ℤ) (spawnTile : Option ℕ) (canBuild : Bool) :
    Option ℕ :=
  if ¬chancePassed then none
  else if ports > 0 ∧ warships = 0 ∧ gold > warshipCost then
    match spawnTile with
    | none => none
    | some t => if ¬canBuild then none else some t
  else none

/-! ## Theorems -/

/-- C7: applying the embargo-penalty update twice in a row for the same
opponent without any intervening change in that opponent's embargo state
leaves relations unchanged on the second call — the second pass performs no
`updateRelation` call at all, so the -20 delta is applied exactly once per
embargo start and reversed exactly once per embargo lift, never doubled. -/
theorem embargo_update_idempotent (hasEmbargo : Bool) (s : EmbargoState) :
    updateRelationsFromEmbargos hasEmbargo
        (updateRelationsFromEmbargos hasEmbargo s).1 =
      ((updateRelationsFromEmbargos hasEmbargo s).1, []) := by
  obtain ⟨rel, applied⟩ := s
  cases hasEmbargo <;> cases applied <;>
    simp [updateRelationsFromEmbargos]

/-- C9: on every tick failing the randomized cadence check
(`tick mod attackRate ≠ attackTick`), both `FakeHumanCoordinator.tick` and
`FakeHumanExecution.tick` are no-ops: no execution is submitted, nothing is
recommended, and the agent state is unchanged. -/
theorem cadence_mismatch_no_action (attackRate attackTick : ℕ) (s : CoordState)
    (ticks : ℕ) (ci : CoordInput) (fi : FHInput)
    (h : ticks % attackRate ≠ attackTick) :
    coordTick attackRate attackTick s ticks ci = (s, []) ∧
      fakeHumanTick attackRate attackTick s ticks fi = (s, []) := by
  constructor
  · unfold coordTick
    rw [if_pos h]
  · unfold fakeHumanTick
    rw [if_pos h]

/-- Witness for `cadence_mismatch_no_action` at the concrete cadence
`(attackRate, attackTick) = (40, 3)` and tick 40. -/
theorem cadence_mismatch_no_action_witness :
    coordTick 40 3 ⟨true, true, true⟩ 40
        ⟨false, none, true, true, true, true, true, true⟩ =
      (⟨true, true, true⟩, []) ∧
      fakeHumanTick 40 3 ⟨true, true, true⟩ 40
          ⟨false, none, true, true, [], [], [], [], [], []⟩ =
        (⟨true, true, true⟩, []) :=
  cadence_mismatch_no_action 40 3 ⟨true, true, true⟩ 40
    ⟨false, none, true, true, true, true, true, true⟩
    ⟨false, none, true, true, [], [], [], [], [], []⟩ (by decide)

/-- C1 fails on the code (code bug): at the failing input — the player holds
36M gold and a missile silo, the sole other live player holds 10M gold (so
`getMIRVReserveThreshold` is the 35M floor and spendable gold is 1M), and a
city of real cost 2M with no city yet owned and a confirmed-buildable spawn
tile — `EconomyAdvisor.recommendStructure` recommends the construction
because it compares the full gold balance (36M ≥ 2M) against the perceived
cost, even though gold minus the MIRV reserve threshold (1M) is below the
perceived cost, contradicting the reserve-gated affordability the spec (and
the `canAffordWithReserve` documentation in the source) requires. -/
theorem economy_affordability_ignores_reserve :
    recommendStructure 36000000 2000000 0 (fun n => n) (some 0) true = some 0 ∧
      getMIRVReserveThreshold true [10000000] = 35000000 ∧
      getSpendableGold 36000000 (getMIRVReserveThreshold true [10000000]) <
        2000000 := by
  have h35 : getMIRVReserveThreshold true [10000000] = 35000000 := by
    norm_num [getMIRVReserveThreshold, reserveFinalThreshold,
      competitiveThreshold, competitiveMultiplier, capabilityAdjust,
      levelAdjust, gapMultiplier, levelRatio, topGapRatio, weightedBenchmark,
      top3Avg, top3Count, avgOtherGold, maxOtherGold, sortDesc, insertDesc]
  refine ⟨by decide, h35, ?_⟩
  rw [h35]
  decide

/-- C3 as stated is false on the code: on an eligible active tick where all
four advisors return non-null recommendations, the coordinator executes all
four of them in the same tick — the number of executed recommendations is
not at most one. -/
theorem coordinator_executes_every_recommendation :
    ¬(executedRecs
          (coordTick 40 0 ⟨true, true, true⟩ 40
              ⟨false, none, true, true, true, true, true, true⟩).2).length ≤ 1 := by
  decide

/-- C3 amended: on every eligible active tick, the coordinator queries the
advisors in the fixed order diplomacy, economy, strategic-strike, military,
executing each advisor's non-null recommendation immediately — at most one
execution per advisor, in that fixed order, up to four per tick; no
best-by-score arbitration and no deferral of a non-null recommendation
occurs. -/
theorem coordinator_fixed_order_executes_each (attackRate attackTick : ℕ)
    (active : Bool) (ticks : ℕ) (inp : CoordInput)
    (hCad : ticks % attackRate = attackTick) (hSpawn : inp.inSpawnPhase = false)
    (hAlive : inp.playerAlive = true) :
    executedRecs
        (coordTick attackRate attackTick ⟨active, true, true⟩ ticks inp).2 =
      (if inp.diplomacyRec then [AdvisorTag.diplomacy] else []) ++
        (if inp.economyRec then [AdvisorTag.economy] else []) ++
        (if inp.mirvRec then [AdvisorTag.mirv] else []) ++
        (if inp.militaryRec then [AdvisorTag.military] else []) ∧
      ∀ tag : AdvisorTag,
        (executedRecs
            (coordTick attackRate attackTick ⟨active, true, true⟩ ticks
                inp).2).count tag ≤ 1 := by
  obtain ⟨sp, sl, pf, pa, d, e, m, ml⟩ := inp
  simp only at hSpawn hAlive
  subst hSpawn hAlive
  constructor
  · cases d <;> cases e <;> cases m <;> cases ml <;>
      simp [coordTick, hCad, executedRecs, advisorEffect]
  · intro tag
    cases d <;> cases e <;> cases m <;> cases ml <;> cases tag <;>
      simp [coordTick, hCad, executedRecs, advisorEffect]

/-- Witness for `coordinator_fixed_order_executes_each` on an eligible tick
with a diplomacy and a MIRV recommendation present. -/
theorem coordinator_fixed_order_executes_each_witness :
    executedRecs
        (coordTick 40 0 ⟨true, true, true⟩ 80
            ⟨false, none, true, true, true, false, true, false⟩).2 =
      [AdvisorTag.diplomacy] ++ [] ++ [AdvisorTag.mirv] ++ [] ∧
      ∀ tag : AdvisorTag,
        (executedRecs
            (coordTick 40 0 ⟨true, true, true⟩ 80
                ⟨false, none, true, true, true, false, true, false⟩).2).count
            tag ≤ 1 := by
  have h := coordinator_fixed_order_executes_each 40 0 true 80
    ⟨false, none, true, true, true, false, true, false⟩ (by decide) rfl rfl
  simpa using h

/-- An element not satisfying the dropped predicate survives `dropWhile`. -/
theorem mem_dropWhile_of_not_pred {α : Type} (p : α → Bool) {l : List α}
    {x : α} (hx : x ∈ l) (hpx : ¬p x = true) : x ∈ l.dropWhile p := by
  have hsplit := List.takeWhile_append_dropWhile p l
  rw [← hsplit] at hx
  rcases List.mem_append.1 hx with h | h
  · exact absurd (List.mem_takeWhile_imp h) hpx
  · exact h

/-- A strike event younger than the cooldown window survives
`removeOldMIRVEvents` and keeps the strike memory non-empty. -/
theorem mem_removeOldMIRVEvents {T c tick : ℕ} {q : List (ℕ × ℕ)}
    (hmem : (T, c) ∈ q) (htick : tick < T + MIRV_COOLDOWN_TICKS) :
    (T, c) ∈ removeOldMIRVEvents tick q := by
  apply mem_dropWhile_of_not_pred _ hmem
  simp only [decide_eq_true_eq]
  omega

/-- One query during the cooldown window recommends nothing and preserves
the recorded strike event. -/
theorem recommendMIRV_cooldown_step {T c : ℕ} (inp : MIRVQuery)
    {q : List (ℕ × ℕ)} (hmem : (T, c) ∈ q)
    (htick : inp.tick < T + MIRV_COOLDOWN_TICKS) :
    (recommendMIRV inp q).1 = none ∧ (T, c) ∈ (recommendMIRV inp q).2 := by
  unfold recommendMIRV
  by_cases hSilo : inp.hasSilo
  case neg => simp [hSilo, hmem]
  by_cases hGold : inp.goldOk
  case neg => simp [hSilo, hGold, hmem]
  have hq1 : (T, c) ∈ removeOldMIRVEvents inp.tick q :=
    mem_removeOldMIRVEvents hmem htick
  have hne : removeOldMIRVEvents inp.tick q ≠ [] :=
    List.ne_nil_of_mem hq1
  simp [hSilo, hGold, hne, hq1]

/-- C4: after a strategic (MIRV) strike has been launched and recorded at
tick `T` (so `(T, tile)` is in the `lastMIRVSent` strike memory), the MIRV
advisor returns no strike recommendation on any sequence of queries whose
ticks are all strictly before `T + 600`, regardless of how many times
`recommend()` is queried. -/
theorem mirv_cooldown_no_recommendation (T c : ℕ) (q : List (ℕ × ℕ))
    (inps : List MIRVQuery) (hmem : (T, c) ∈ q)
    (hticks : ∀ i ∈ inps, i.tick < T + MIRV_COOLDOWN_TICKS) :
    recommendMIRVMany inps q = inps.map (fun _ => none) := by
  induction inps generalizing q with
  | nil => rfl
  | cons i rest ih =>
    have hi := hticks i (List.mem_cons_self i rest)
    have hstep := recommendMIRV_cooldown_step i hmem hi
    simp only [recommendMIRVMany, hstep.1, List.map_cons]
    exact congrArg _ (ih (recommendMIRV i q).2 hstep.2
      (fun j hj => hticks j (List.mem_cons_of_mem i hj)))

/-- Witness for `mirv_cooldown_no_recommendation`: a strike recorded at tick
5, queried twice at ticks 10 and 604 (both inside the 600-tick window), with
a silo, sufficient gold, no hesitation and a victory-denial target available
— both queries recommend nothing. -/
theorem mirv_cooldown_no_recommendation_witness :
    recommendMIRVMany
        [⟨10, true, true, false, none, some 4, none, fun _ => some 9, 0⟩,
          ⟨604, true, true, false, none, some 4, none, fun _ => some 9, 0⟩]
        [(5, 0)] =
      [none, none] :=
  (mirv_cooldown_no_recommendation 5 0 [(5, 0)]
      [⟨10, true, true, false, none, some 4, none, fun _ => some 9, 0⟩,
        ⟨604, true, true, false, none, some 4, none, fun _ => some 9, 0⟩]
      (by decide) (by simp [MIRV_COOLDOWN_TICKS])).trans rfl

/-- On a duplicate-free list, JavaScript `Set` construction is the identity. -/
theorem jsSetOf_eq_self {α : Type} [DecidableEq α] {a : List α}
    (h : a.Nodup) : jsSetOf a = a := by
  induction a with
  | nil => rfl
  | cons x l ih =>
    rw [List.nodup_cons] at h
    unfold jsSetOf
    rw [ih h.2, List.filter_eq_self.2]
    intro b hb
    exact decide_eq_true fun hbx => h.1 (hbx ▸ hb)

/-- The without-replacement sampling loop, drawing from a duplicate-free
pool at least as large as the request, succeeds and returns the requested
number of pairwise-distinct pool elements. -/
theorem sampleLoop_spec {α : Type} [DecidableEq α] (rand : ℕ → ℕ) :
    ∀ (k : ℕ) (step : ℕ) (remaining : List α), remaining.Nodup →
      k ≤ remaining.length →
      ∃ l, sampleLoop rand step k remaining = some l ∧ l.length = k ∧
        l.Nodup ∧ ∀ x ∈ l, x ∈ remaining := by
  intro k
  induction k with
  | zero => exact fun step remaining _ _ => ⟨[], rfl, rfl, List.nodup_nil, by simp⟩
  | succ k ih =>
    intro step remaining hnd hk
    have hpos : 0 < remaining.length := Nat.lt_of_lt_of_le (Nat.succ_pos k) hk
    have hlt : rand step % remaining.length < remaining.length :=
      Nat.mod_lt _ hpos
    obtain ⟨t, ht⟩ : ∃ t, randFromSet (rand step) remaining = some t :=
      ⟨_, List.get?_eq_get hlt⟩
    have htmem : t ∈ remaining := by
      have := List.get?_mem ht
      exact this
    have hnd' : (remaining.erase t).Nodup := hnd.erase t
    have hlen' : (remaining.erase t).length = remaining.length - 1 :=
      List.length_erase_of_mem htmem
    have hk' : k ≤ (remaining.erase t).length := by omega
    obtain ⟨l, hl, hlen, hlnd, hsub⟩ := ih (step + 1) (remaining.erase t) hnd' hk'
    refine ⟨t :: l, ?_, by simp [hlen], ?_, ?_⟩
    · simp [sampleLoop, ht, hl]
    · refine List.nodup_cons.2 ⟨fun htl => ?_, hlnd⟩
      have := hsub t htl
      exact ((hnd.mem_erase_iff).1 this).1 rfl
    · intro x hx
      rcases List.mem_cons.1 hx with rfl | hx
      · exact htmem
      · exact List.erase_subset _ _ (hsub x hx)

/-- C8 as stated is false on the code: for the candidate array `[0, 0, 0]`
and sample size 2 the array is longer than the request, yet no output
consisting of 2 pairwise-distinct elements of the array exists (and the
embedded sampler in fact exhausts the deduplicated candidate set and invokes
the random collaborator on an empty set). -/
theorem arraySampler_duplicates_counterexample :
    ¬∃ l : List ℕ, arraySampler (fun _ => 0) [0, 0, 0] 2 = some l ∧
      l.length = 2 ∧ l.Nodup ∧ ∀ x ∈ l, x ∈ [0, 0, 0] := by
  rintro ⟨l, -, hlen, hnd, hsub⟩
  obtain ⟨a, b, rfl⟩ : ∃ a b, l = [a, b] := by
    match l, hlen with
    | [a, b], _ => exact ⟨a, b, rfl⟩
  have ha : a = 0 := by simpa using hsub a (by simp)
  have hb : b = 0 := by simpa using hsub b (by simp)
  rw [List.nodup_cons] at hnd
  exact hnd.1 (by simp [ha, hb])

/-- C8 amended: for every candidate array `a` of pairwise-distinct elements
and requested sample size `n`: if `a` has at most `n` elements the sampler
yields exactly `a` (the full candidate set, with no rejection loop); if `a`
has more than `n` elements it yields exactly `n` pairwise-distinct elements
of `a` (no-replacement sampling). -/
theorem arraySampler_exhaustive_or_distinct {α : Type} [DecidableEq α]
    (rand : ℕ → ℕ) (a : List α) (n : ℕ) :
    (a.length ≤ n → arraySampler rand a n = some a) ∧
      (a.Nodup → n < a.length →
        ∃ l, arraySampler rand a n = some l ∧ l.length = n ∧ l.Nodup ∧
          ∀ x ∈ l, x ∈ a) := by
  constructor
  · intro h
    unfold arraySampler
    rw [if_pos h]
  · intro hnd h
    unfold arraySampler
    rw [if_neg (by omega), jsSetOf_eq_self hnd]
    exact sampleLoop_spec rand n 0 a hnd (Nat.le_of_lt h)

/-- Witness for `arraySampler_exhaustive_or_distinct`: the distinct array
`[5, 7, 9]` sampled with size 5 (exhaustive case) and with size 2
(no-replacement case). -/
theorem arraySampler_exhaustive_or_distinct_witness :
    arraySampler (fun _ => 0) [5, 7, 9] 5 = some [5, 7, 9] ∧
      ∃ l : List ℕ, arraySampler (fun _ => 0) [5, 7, 9] 2 = some l ∧
        l.length = 2 ∧ l.Nodup ∧ ∀ x ∈ l, x ∈ [5, 7, 9] :=
  ⟨(arraySampler_exhaustive_or_distinct (fun _ => 0) [5, 7, 9] 5).1
      (by decide),
    (arraySampler_exhaustive_or_distinct (fun _ => 0) [5, 7, 9] 2).2
      (by decide) (by decide)⟩

/-- The `largestMember` scan returns a member whose tile count is maximal
among all scanned members (and at least the tile count of any accumulator
entry). -/
theorem largestScan_max :
    ∀ (l : List VPlayer) (acc : Option VPlayer) (b : VPlayer),
      l.foldl
          (fun acc m =>
            match acc with
            | none => some m
            | some b => if (m.tiles : ℤ) > b.tiles then some m else some b)
          acc = some b →
      (∀ m ∈ l, m.tiles ≤ b.tiles) ∧ ∀ a, acc = some a → a.tiles ≤ b.tiles := by
  intro l
  induction l with
  | nil =>
    intro acc b h
    refine ⟨by simp, fun a ha => ?_⟩
    rw [ha] at h
    cases h
    exact le_refl _
  | cons m rest ih =>
    intro acc b h
    simp only [List.foldl_cons] at h
    obtain ⟨hrest, hacc⟩ := ih _ b h
    have hm : m.tiles ≤ b.tiles := by
      cases acc with
      | none => exact hacc m rfl
      | some a0 =>
        by_cases hgt : (m.tiles : ℤ) > a0.tiles
        · exact hacc m (by simp [hgt])
        · have := hacc a0 (by simp [hgt])
          omega
    refine ⟨fun x hx => ?_, fun a ha => ?_⟩
    · rcases List.mem_cons.1 hx with rfl | hx
      · exact hm
      · exact hrest x hx
    · subst ha
      by_cases hgt : (m.tiles : ℤ) > a.tiles
      · have := hacc m (by simp [hgt])
        omega
      · exact hacc a (by simp [hgt])

/-- The selection fold of `selectVictoryDenialTarget` only returns a
candidate whose severity is strictly positive (and equal to the recorded
best severity). -/
theorem victory_fold_spec (players : List VPlayer) (totalLand : ℕ) :
    ∀ (l : List VPlayer) (acc : Option (VPlayer × ℚ)) (b : VPlayer × ℚ),
      l.foldl
          (fun best p =>
            let severity := victoryDenialSeverity players totalLand p
            if severity > 0 then
              match best with
              | none => some (p, severity)
              | some b => if severity > b.2 then some (p, severity) else some b
            else best)
          acc = some b →
      acc = some b ∨
        (b.2 = victoryDenialSeverity players totalLand b.1 ∧ 0 < b.2) := by
  intro l
  induction l with
  | nil => exact fun acc b h => Or.inl h
  | cons p rest ih =>
    intro acc b h
    simp only [List.foldl_cons] at h
    rcases ih _ b h with hstep | hprop
    · by_cases hsev : victoryDenialSeverity players totalLand p > 0
      · cases acc with
        | none =>
          simp only [hsev, if_pos] at hstep
          cases hstep
          exact Or.inr ⟨rfl, hsev⟩
        | some a =>
          by_cases hgt : victoryDenialSeverity players totalLand p > a.2
          · simp only [hsev, if_pos, hgt] at hstep
            cases hstep
            exact Or.inr ⟨rfl, hsev⟩
          · simp only [hsev, if_pos, hgt, if_neg, if_false] at hstep
            exact Or.inl hstep
      · simp only [hsev, if_neg, if_false] at hstep
        exact Or.inl hstep
    · exact Or.inr hprop

/-- C5: a player `p` is selected by the victory-denial heuristic only when:
if `p` is non-teamed, `p`'s owned-tile share of the total land is at least
the 0.65 individual threshold; if `p` is on team `tm`, the team's combined
share is at least the 0.8 team threshold and `p` is the scanned largest team
member — in particular no team member owns more tiles than `p`. -/
theorem victory_denial_threshold (players : List VPlayer) (agentId : ℕ)
    (agentTeam : Option ℕ) (totalLand : ℕ) (p : VPlayer)
    (h : selectVictoryDenialTarget players agentId agentTeam totalLand =
      some p) :
    (p.team = none →
      65 / 100 ≤ (p.tiles : ℚ) / (totalLand : ℚ)) ∧
      ∀ tm, p.team = some tm →
        8 / 10 ≤
            ((((players.filter (fun x => x.team = some tm ∧ x.isPlayer)).map
                (fun x => x.tiles)).sum : ℕ) : ℚ) / (totalLand : ℚ) ∧
          largestScan
              (players.filter (fun x => x.team = some tm ∧ x.isPlayer)) =
            some p ∧
          ∀ m ∈ players.filter (fun x => x.team = some tm ∧ x.isPlayer),
            m.tiles ≤ p.tiles := by
  unfold selectVictoryDenialTarget at h
  by_cases hland : totalLand = 0
  · rw [if_pos hland] at h
    cases h
  rw [if_neg hland] at h
  obtain ⟨b, hfold, hb⟩ := Option.map_eq_some'.1 h
  rcases victory_fold_spec players totalLand _ none b hfold with hnone | hsev
  · cases hnone
  subst hb
  obtain ⟨hsev_eq, hsev_pos⟩ := hsev
  rw [hsev_eq] at hsev_pos
  unfold victoryDenialSeverity at hsev_pos
  constructor
  · intro hteam
    rw [hteam] at hsev_pos
    simp only at hsev_pos
    by_cases hshare :
        65 / 100 ≤ ((b.1.tiles : ℚ) : ℚ) / (totalLand : ℚ)
    · exact hshare
    · rw [if_neg (by exact fun hc => hshare hc)] at hsev_pos
      exact absurd hsev_pos (lt_irrefl 0)
  · intro tm hteam
    rw [hteam] at hsev_pos
    simp only at hsev_pos
    by_cases hshare :
        ((((players.filter (fun x => x.team = some tm ∧ x.isPlayer)).map
            (fun x => x.tiles)).sum : ℕ) : ℚ) / (totalLand : ℚ) ≥ 8 / 10
    · rw [if_pos hshare] at hsev_pos
      by_cases hlarge :
          largestScan (players.filter (fun x => x.team = some tm ∧ x.isPlayer)) =
            some b.1
      · refine ⟨hshare, hlarge, fun m hm => ?_⟩
        exact (largestScan_max _ none b.1 hlarge).1 m hm
      · rw [if_neg hlarge] at hsev_pos
        exact absurd hsev_pos (lt_irrefl 0)
    · rw [if_neg hshare] at hsev_pos
      exact absurd hsev_pos (lt_irrefl 0)

/-- Witness for `victory_denial_threshold`: a non-teamed player owning 700
of 1000 land tiles is selected, and its share meets the 0.65 threshold. -/
theorem victory_denial_threshold_witness :
    65 / 100 ≤ (((700 : ℕ) : ℚ)) / ((1000 : ℕ) : ℚ) :=
  (victory_denial_threshold
      [⟨1, true, false, none, 700⟩, ⟨2, true, false, none, 100⟩] 0 none 1000
      ⟨1, true, false, none, 700⟩
      (by
        norm_num [selectVictoryDenialTarget, getValidMirvTargetPlayers,
          victoryDenialSeverity, largestScan, List.filter])).1 rfl

/-- Membership in the coordinate range of a bounding box. -/
theorem mem_boxCoords {c x : ℤ} {r : ℕ} :
    x ∈ boxCoords c r ↔ c - r ≤ x ∧ x ≤ c + r := by
  simp only [boxCoords, List.mem_map, List.mem_range]
  constructor
  · rintro ⟨i, hi, rfl⟩
    omega
  · rintro ⟨h1, h2⟩
    exact ⟨(x - (c - r)).toNat, by omega, by omega⟩

/-- Membership in a bounding box: on-map and within the box radius on both
axes. -/
theorem mem_boundingBoxTiles {g : NukeGame} {t u : Tile} {r : ℕ}
    (hvalid : isValidTile g u = true) (hx : (u.1 - t.1).natAbs ≤ r)
    (hy : (u.2 - t.2).natAbs ≤ r) : u ∈ boundingBoxTiles g t r := by
  rw [boundingBoxTiles, List.mem_filter]
  refine ⟨?_, hvalid⟩
  obtain ⟨u1, u2⟩ := u
  apply List.pair_mem_product.2
  constructor
  · exact mem_boxCoords.2 (by simp at hx ⊢; omega)
  · exact mem_boxCoords.2 (by simp at hy ⊢; omega)

/-- A tile surviving the selection fold of `maybeSendNuke` passed the
footprint-ownership and buildability checks. -/
theorem findBestNukeTile_sound (g : NukeGame) (target : ℕ) (r : ℕ) :
    ∀ (cands : List Tile) (acc : Option Tile × ℚ) (t : Tile),
      (cands.foldl
          (fun acc tile =>
            if ¬nukeFootprintOk g target r tile then acc
            else if ¬g.canBuild tile then acc
            else if g.score tile > acc.2 then (some tile, g.score tile) else acc)
          acc).1 = some t →
      acc.1 = some t ∨
        (t ∈ cands ∧ nukeFootprintOk g target r t = true ∧
          g.canBuild t = true) := by
  intro cands
  induction cands with
  | nil => exact fun acc t h => Or.inl h
  | cons c rest ih =>
    intro acc t h
    rw [List.foldl_cons] at h
    rcases ih _ t h with hstep | hprop
    · by_cases hfp : nukeFootprintOk g target r c
      · by_cases hcb : g.canBuild c
        · by_cases hsc : g.score c > acc.2
          · simp only [hfp, hcb, hsc, not_true, if_neg, if_false, if_pos,
              Bool.not_true, reduceIte] at hstep
            cases hstep
            exact Or.inr ⟨List.mem_cons_self c rest, hfp, hcb⟩
          · simp only [hfp, hcb, hsc, Bool.not_true, reduceIte] at hstep
            exact Or.inl hstep
        · simp only [hfp, hcb, Bool.not_true, Bool.not_false, reduceIte]
            at hstep
          exact Or.inl hstep
      · simp only [hfp, Bool.not_false, reduceIte] at hstep
        exact Or.inl hstep
    · exact Or.inr ⟨List.mem_cons_of_mem c hprop.1, hprop.2⟩

/-- The selection fold of `maybeSendNuke` only returns tiles of strictly
positive score: the running best value starts at 0 and is replaced only by
strictly greater scores. -/
theorem findBestNukeTile_pos (g : NukeGame) (target : ℕ) (r : ℕ) :
    ∀ (cands : List Tile) (acc : Option Tile × ℚ),
      0 ≤ acc.2 → (∀ t, acc.1 = some t → acc.2 = g.score t ∧ 0 < g.score t) →
      ∀ t,
        (cands.foldl
            (fun acc tile =>
              if ¬nukeFootprintOk g target r tile then acc
              else if ¬g.canBuild tile then acc
              else if g.score tile > acc.2 then (some tile, g.score tile)
              else acc)
            acc).1 = some t →
        0 < g.score t := by
  intro cands
  induction cands with
  | nil => exact fun acc _ hinv t h => (hinv t h).2
  | cons c rest ih =>
    intro acc hnn hinv t h
    rw [List.foldl_cons] at h
    by_cases hfp : nukeFootprintOk g target r c
    · by_cases hcb : g.canBuild c
      · by_cases hsc : g.score c > acc.2
        · refine ih _ (le_of_lt (lt_of_le_of_lt hnn ?_)) ?_ t
            (by simpa [hfp, hcb, hsc] using h)
          · exact hsc
          · intro t' ht'
            simp only at ht'
            cases ht'
            exact ⟨rfl, lt_of_le_of_lt hnn hsc⟩
        · exact ih _ hnn hinv t (by simpa [hfp, hcb, hsc] using h)
      · exact ih _ hnn hinv t (by simpa [hfp, hcb] using h)
    · exact ih _ hnn hinv t (by simpa [hfp] using h)

/-- When every admissible candidate scores at most zero, the selection fold
of `maybeSendNuke` never replaces its initial empty accumulator. -/
theorem findBestNukeTile_none (g : NukeGame) (target : ℕ) (r : ℕ)
    (cands : List Tile)
    (hnp : ∀ t ∈ cands, nukeFootprintOk g target r t = true →
      g.canBuild t = true → g.score t ≤ 0) :
    findBestNukeTile g target r cands = none := by
  unfold findBestNukeTile
  suffices h : cands.foldl
      (fun acc tile =>
        if ¬nukeFootprintOk g target r tile then acc
        else if ¬g.canBuild tile then acc
        else if g.score tile > acc.2 then (some tile, g.score tile) else acc)
      ((none : Option Tile), (0 : ℚ)) = (none, 0) by
    rw [h]
  induction cands with
  | nil => rfl
  | cons c rest ih =>
    rw [List.foldl_cons]
    have hstep :
        (if ¬nukeFootprintOk g target r c then ((none : Option Tile), (0 : ℚ))
          else if ¬g.canBuild c then (none, 0)
          else if g.score c > (0 : ℚ) then (some c, g.score c) else (none, 0)) =
          ((none : Option Tile), (0 : ℚ)) := by
      by_cases hfp : nukeFootprintOk g target r c
      · by_cases hcb : g.canBuild c
        · have := hnp c (List.mem_cons_self c rest) hfp hcb
          simp [hfp, hcb, not_lt.2 this]
        · simp [hfp, hcb]
      · simp [hfp]
    rw [hstep]
    exact ih (fun t ht => hnp t (List.mem_cons_of_mem c ht))

/-- C2: for every conventional nuclear strike decision, any selected strike
tile has every on-map tile within its full damage radius (and a fortiori
within its half damage radius) owned by the intended target player: a
candidate with a non-target-owned tile in the checked footprint is never
selected. -/
theorem nuke_strike_footprint_owned (g : NukeGame) (target : ℕ)
    (inp : NukeDecisionInput) (t : Tile) (hydro : Bool)
    (h : maybeSendNuke g target inp = some (t, hydro)) :
    ∀ u : Tile, isValidTile g u = true →
      (u.1 - t.1) ^ 2 + (u.2 - t.2) ^ 2 ≤
        (((if hydro then 60 else 15 : ℕ) : ℤ)) ^ 2 →
      g.owner u = target := by
  unfold maybeSendNuke at h
  by_cases hguard :
      ¬inp.hasSilo ∨ ¬inp.goldAtomOk ∨ inp.targetIsBot ∨ inp.sameTeam
  · rw [if_pos hguard] at h
    cases h
  rw [if_neg hguard] at h
  obtain ⟨t', ht', heq⟩ := Option.map_eq_some'.1 h
  have h1 : t' = t := congrArg Prod.fst heq
  have h2 : inp.goldGtHydrogenCost = hydro := congrArg Prod.snd heq
  rw [h1] at ht'
  subst h2
  unfold findBestNukeTile at ht'
  rcases findBestNukeTile_sound g target _ inp.cands (none, 0) t ht' with
    hnone | ⟨-, hfp, -⟩
  · cases hnone
  intro u hvalid hdist
  set r : ℕ := if inp.goldGtHydrogenCost then 60 else 15 with hr
  have hrpos : (0 : ℤ) ≤ (r : ℤ) := Int.natCast_nonneg r
  have hx2 : (u.1 - t.1) ^ 2 ≤ ((r : ℤ)) ^ 2 := by
    nlinarith [sq_nonneg (u.2 - t.2)]
  have hy2 : (u.2 - t.2) ^ 2 ≤ ((r : ℤ)) ^ 2 := by
    nlinarith [sq_nonneg (u.1 - t.1)]
  have hx : (u.1 - t.1).natAbs ≤ r := by
    have h1 : u.1 - t.1 ≤ (r : ℤ) := by nlinarith [sq_nonneg (u.1 - t.1 - r)]
    have h2 : -(r : ℤ) ≤ u.1 - t.1 := by nlinarith [sq_nonneg (u.1 - t.1 + r)]
    omega
  have hy : (u.2 - t.2).natAbs ≤ r := by
    have h1 : u.2 - t.2 ≤ (r : ℤ) := by nlinarith [sq_nonneg (u.2 - t.2 - r)]
    have h2 : -(r : ℤ) ≤ u.2 - t.2 := by nlinarith [sq_nonneg (u.2 - t.2 + r)]
    omega
  have hmem : u ∈ footprintBoxes g t r :=
    List.mem_append_left _ (mem_boundingBoxTiles hvalid hx hy)
  have := (List.all_eq_true.1 hfp) u hmem
  simpa using this

/-- C10: conventional-nuke tile selection requires a strictly positive
score: any selected tile scores strictly above zero, and when every
admissible candidate (footprint owned by the target and buildable) scores at
most zero, no nuke is launched that tick. -/
theorem nuke_requires_positive_score (g : NukeGame) (target : ℕ)
    (inp : NukeDecisionInput) :
    (∀ t hydro, maybeSendNuke g target inp = some (t, hydro) →
        0 < g.score t) ∧
      ((∀ t ∈ inp.cands,
          nukeFootprintOk g target
              (if inp.goldGtHydrogenCost then 60 else 15) t = true →
          g.canBuild t = true → g.score t ≤ 0) →
        maybeSendNuke g target inp = none) := by
  constructor
  · intro t hydro h
    unfold maybeSendNuke at h
    by_cases hguard :
        ¬inp.hasSilo ∨ ¬inp.goldAtomOk ∨ inp.targetIsBot ∨ inp.sameTeam
    · rw [if_pos hguard] at h
      cases h
    rw [if_neg hguard] at h
    obtain ⟨t', ht', heq⟩ := Option.map_eq_some'.1 h
    have ht : t' = t := congrArg Prod.fst heq
    rw [ht] at ht'
    unfold findBestNukeTile at ht'
    exact findBestNukeTile_pos g target _ inp.cands (none, 0) le_rfl
      (fun t0 h0 => by cases h0) t ht'
  · intro hnp
    unfold maybeSendNuke
    by_cases hguard :
        ¬inp.hasSilo ∨ ¬inp.goldAtomOk ∨ inp.targetIsBot ∨ inp.sameTeam
    · rw [if_pos hguard]
    · rw [if_neg hguard]
      rw [findBestNukeTile_none g target _ inp.cands hnp]
      rfl

/-- Witness for `nuke_strike_footprint_owned`: on a 1×1 map fully owned by
player 1, with a buildable candidate of score 1 at the origin, the atom-bomb
branch selects the origin, and the selected tile's entire on-map damage
footprint is owned by player 1. -/
theorem nuke_strike_footprint_owned_witness :
    maybeSendNuke ⟨1, 1, fun _ => 1, fun _ => true, fun _ => 1⟩ 1
        ⟨true, true, false, false, false, [((0 : ℤ), (0 : ℤ))]⟩ =
      some (((0 : ℤ), (0 : ℤ)), false) ∧
      (⟨1, 1, fun _ => 1, fun _ => true, fun _ => 1⟩ : NukeGame).owner
          ((0 : ℤ), (0 : ℤ)) = 1 := by
  have hfp : nukeFootprintOk ⟨1, 1, fun _ => 1, fun _ => true, fun _ => 1⟩ 1
      15 ((0 : ℤ), (0 : ℤ)) = true :=
    List.all_eq_true.2 (fun u _ => rfl)
  have hbest : findBestNukeTile ⟨1, 1, fun _ => 1, fun _ => true, fun _ => 1⟩
      1 15 [((0 : ℤ), (0 : ℤ))] = some ((0 : ℤ), (0 : ℤ)) := by
    unfold findBestNukeTile
    rw [List.foldl_cons, List.foldl_nil]
    simp only [hfp]
    norm_num
  have h : maybeSendNuke ⟨1, 1, fun _ => 1, fun _ => true, fun _ => 1⟩ 1
      ⟨true, true, false, false, false, [((0 : ℤ), (0 : ℤ))]⟩ =
      some (((0 : ℤ), (0 : ℤ)), false) := by
    unfold maybeSendNuke
    rw [if_neg (by decide)]
    show (findBestNukeTile ⟨1, 1, fun _ => 1, fun _ => true, fun _ => 1⟩
        1 15 [((0 : ℤ), (0 : ℤ))]).map (fun t => (t, false)) =
      some (((0 : ℤ), (0 : ℤ)), false)
    rw [hbest]
    rfl
  exact ⟨h,
    nuke_strike_footprint_owned _ 1 _ ((0 : ℤ), (0 : ℤ)) false h
      ((0 : ℤ), (0 : ℤ)) (by decide) (by decide)⟩

/-- Witness for `nuke_requires_positive_score`: on a 1×1 map fully owned by
player 1 with a single admissible candidate of score -1, no nuke is
launched. -/
theorem nuke_requires_positive_score_witness :
    maybeSendNuke ⟨1, 1, fun _ => 1, fun _ => true, fun _ => -1⟩ 1
        ⟨true, true, false, false, false, [((0 : ℤ), (0 : ℤ))]⟩ = none :=
  (nuke_requires_positive_score ⟨1, 1, fun _ => 1, fun _ => true, fun _ => -1⟩
      1 ⟨true, true, false, false, false, [((0 : ℤ), (0 : ℤ))]⟩).2
    (fun t _ _ _ => by norm_num)

/-- Unfolding of `sortDesc` on a cons cell. -/
theorem sortDesc_cons (a : ℚ) (l : List ℚ) :
    sortDesc (a :: l) = insertDesc a (sortDesc l) := rfl

/-- Membership through the descending insertion. -/
theorem mem_insertDesc {x y : ℚ} {l : List ℚ} :
    y ∈ insertDesc x l ↔ y = x ∨ y ∈ l := by
  induction l with
  | nil => simp [insertDesc]
  | cons a t ih =>
    unfold insertDesc
    by_cases h : x ≥ a
    · simp [h]
    · simp only [h, if_false, List.mem_cons, ih]
      tauto

/-- The descending sort preserves membership. -/
theorem mem_sortDesc {y : ℚ} {l : List ℚ} : y ∈ sortDesc l ↔ y ∈ l := by
  induction l with
  | nil => simp [sortDesc]
  | cons a t ih =>
    rw [sortDesc_cons, mem_insertDesc, ih, List.mem_cons]

/-- The descending insertion adds one element. -/
theorem length_insertDesc (x : ℚ) (l : List ℚ) :
    (insertDesc x l).length = l.length + 1 := by
  induction l with
  | nil => rfl
  | cons a t ih =>
    unfold insertDesc
    by_cases h : x ≥ a
    · simp [h]
    · simp [h, ih]

/-- The descending sort preserves length. -/
theorem length_sortDesc (l : List ℚ) : (sortDesc l).length = l.length := by
  induction l with
  | nil => rfl
  | cons a t ih => rw [sortDesc_cons, length_insertDesc, ih, List.length_cons]

/-- Sorting a list headed by an upper bound of its tail keeps the head in
front. -/
theorem sortDesc_cons_top {g : ℚ} {l : List ℚ} (h : ∀ y ∈ l, y ≤ g) :
    sortDesc (g :: l) = g :: sortDesc l := by
  rw [sortDesc_cons]
  cases hs : sortDesc l with
  | nil => rfl
  | cons a t =>
    have ha : a ∈ l := mem_sortDesc.1 (hs ▸ List.mem_cons_self a t)
    unfold insertDesc
    rw [if_pos (h a ha)]

/-- The richest opponent, when the richest's balance heads the list. -/
theorem maxOtherGold_cons {g : ℚ} {others : List ℚ}
    (hm : ∀ y ∈ others, y ≤ g) : maxOtherGold (g :: others) = g := by
  rw [maxOtherGold, sortDesc_cons_top hm]
  rfl

/-- The opponents' average in terms of the richest balance and the rest. -/
theorem avgOtherGold_cons (g : ℚ) (others : List ℚ) :
    avgOtherGold (g :: others) =
      (g + others.sum) / ((others.length : ℚ) + 1) := by
  rw [avgOtherGold, List.sum_cons, List.length_cons]
  push_cast
  ring_nf

/-- The top-3 average in terms of the richest balance and the rest. -/
theorem top3Avg_cons {g : ℚ} {others : List ℚ}
    (hm : ∀ y ∈ others, y ≤ g) :
    top3Avg (g :: others) =
      (g + ((sortDesc others).take 2).sum) /
        ((min 3 (others.length + 1) : ℕ) : ℚ) := by
  rw [top3Avg, top3Count, sortDesc_cons_top hm, List.take_succ_cons,
    List.sum_cons, List.length_cons, length_sortDesc]

/-- The weighted benchmark is an affine function of the richest balance. -/
theorem weightedBenchmark_cons {g : ℚ} {others : List ℚ}
    (hm : ∀ y ∈ others, y ≤ g) :
    weightedBenchmark (g :: others) =
      ((6 / 10) / ((min 3 (others.length + 1) : ℕ) : ℚ) +
          (4 / 10) / ((others.length : ℚ) + 1)) * g +
        (((sortDesc others).take 2).sum * (6 / 10) /
            ((min 3 (others.length + 1) : ℕ) : ℚ) +
          others.sum * (4 / 10) / ((others.length : ℚ) + 1)) := by
  have hk : ((min 3 (others.length + 1) : ℕ) : ℚ) ≠ 0 := by
    have h1 : 1 ≤ min 3 (others.length + 1) := by omega
    have : (1 : ℚ) ≤ ((min 3 (others.length + 1) : ℕ) : ℚ) := by
      exact_mod_cast h1
    linarith
  have hn : ((others.length : ℚ) + 1) ≠ 0 := by positivity
  rw [weightedBenchmark, top3Avg_cons hm, avgOtherGold_cons]
  field_simp
  ring

/-- The gap-based multiplier factor is non-decreasing. -/
theorem gapMultiplier_mono {r1 r2 : ℚ} (h : r1 ≤ r2) :
    gapMultiplier r1 ≤ gapMultiplier r2 := by
  unfold gapMultiplier
  split_ifs <;> linarith

/-- The gap-based multiplier factor is at least 1. -/
theorem gapMultiplier_ge_one (r : ℚ) : 1 ≤ gapMultiplier r := by
  unfold gapMultiplier
  split_ifs <;> norm_num

/-- The level adjustment never decreases the multiplier. -/
theorem levelAdjust_ge (lr m : ℚ) : m ≤ levelAdjust lr m := by
  unfold levelAdjust
  split_ifs <;> first | exact le_max_left _ _ | exact le_rfl

/-- The level adjustment is monotone in both the level ratio and the
incoming multiplier. -/
theorem levelAdjust_mono {lr1 lr2 m1 m2 : ℚ} (hl : lr1 ≤ lr2)
    (hm : m1 ≤ m2) : levelAdjust lr1 m1 ≤ levelAdjust lr2 m2 := by
  unfold levelAdjust
  split_ifs <;>
    first
      | linarith
      | exact max_le_max hm le_rfl
      | exact max_le (le_trans hm (le_max_left _ _))
          (le_trans (by norm_num) (le_max_right _ _))
      | exact le_trans hm (le_max_left _ _)
      | exact hm

/-- The capability adjustment never decreases the multiplier. -/
theorem capabilityAdjust_ge (maxG t3 m : ℚ) : m ≤ capabilityAdjust maxG t3 m := by
  unfold capabilityAdjust
  split_ifs <;> first | exact le_max_left _ _ | exact le_rfl

/-- The capability adjustment is monotone in the richest balance, the top-3
average, and the incoming multiplier. -/
theorem capabilityAdjust_mono {maxG1 maxG2 t31 t32 m1 m2 : ℚ}
    (hg : maxG1 ≤ maxG2) (ht : t31 ≤ t32) (hm : m1 ≤ m2) :
    capabilityAdjust maxG1 t31 m1 ≤ capabilityAdjust maxG2 t32 m2 := by
  unfold capabilityAdjust
  split_ifs <;>
    first
      | linarith
      | exact max_le_max hm le_rfl
      | exact max_le (le_trans hm (le_max_left _ _))
          (le_trans (by norm_num) (le_max_right _ _))
      | exact le_trans hm (le_max_left _ _)
      | exact hm

/-- The competitive multiplier is at least 1. -/
theorem competitiveMultiplier_ge_one (golds : List ℚ) :
    1 ≤ competitiveMultiplier golds := by
  unfold competitiveMultiplier
  exact le_trans (le_trans (gapMultiplier_ge_one _) (levelAdjust_ge _ _))
    (capabilityAdjust_ge _ _ _)

/-- Monotonicity of the guarded relative-gap expression
`(g - W) / W` (0 when `W ≤ 0`) in `g`, for an affine `W = A * g + B` with
`0 < A ≤ 1`, `0 ≤ B` and `0 ≤ g`. -/
theorem gapRatio_affine_mono {A B g1 g2 : ℚ} (hA : 0 < A) (hA1 : A ≤ 1)
    (hB : 0 ≤ B) (hg1 : 0 ≤ g1) (h12 : g1 ≤ g2) :
    (if A * g1 + B > 0 then (g1 - (A * g1 + B)) / (A * g1 + B) else 0) ≤
      (if A * g2 + B > 0 then (g2 - (A * g2 + B)) / (A * g2 + B) else 0) := by
  by_cases h1 : A * g1 + B > 0
  · by_cases h2 : A * g2 + B > 0
    · rw [if_pos h1, if_pos h2, div_le_div_iff h1 h2]
      nlinarith [mul_le_mul_of_nonneg_left h12 hB]
    · exfalso
      nlinarith
  · by_cases h2 : A * g2 + B > 0
    · rw [if_neg h1, if_pos h2]
      have hW1 : 0 ≤ A * g1 + B := add_nonneg (mul_nonneg hA.le hg1) hB
      have hB0 : B = 0 := by nlinarith [mul_nonneg hA.le hg1]
      have hg2 : 0 ≤ g2 := le_trans hg1 h12
      apply div_nonneg _ (le_of_lt h2)
      nlinarith
    · rw [if_neg h1, if_neg h2]

/-- C6: spendable gold equals `max(0, gold - reserveThreshold)`, and — with
all other opponents' gold balances held fixed (and non-negative) — the MIRV
reserve threshold is a non-decreasing function of the richest opponent's
gold balance. -/
theorem spendable_eq_max_and_reserve_monotone :
    (∀ gold reserveThreshold : ℤ,
        getSpendableGold gold reserveThreshold =
          max 0 (gold - reserveThreshold)) ∧
      ∀ (hasSilo : Bool) (others : List ℚ) (g1 g2 : ℚ),
        (∀ x ∈ others, 0 ≤ x) → (∀ x ∈ others, x ≤ g1) → 0 ≤ g1 → g1 ≤ g2 →
        getMIRVReserveThreshold hasSilo (g1 :: others) ≤
          getMIRVReserveThreshold hasSilo (g2 :: others) := by
  constructor
  · intro gold reserveThreshold
    unfold getSpendableGold
    split_ifs with h <;> omega
  intro hasSilo others g1 g2 h0 hm1 hg1 h12
  cases hasSilo with
  | false => simp [getMIRVReserveThreshold]
  | true =>
    have hm2 : ∀ x ∈ others, x ≤ g2 := fun x hx => (hm1 x hx).trans h12
    unfold getMIRVReserveThreshold
    rw [if_neg (by simp), if_neg (by simp), if_neg (by simp),
      if_neg (by simp)]
    apply Int.floor_le_floor
    unfold reserveFinalThreshold
    apply min_le_min _ le_rfl
    -- notation for the affine coefficients of the weighted benchmark
    have hk1 : (1 : ℚ) ≤ ((min 3 (others.length + 1) : ℕ) : ℚ) := by
      exact_mod_cast (by omega : 1 ≤ min 3 (others.length + 1))
    have hkpos : (0 : ℚ) < ((min 3 (others.length + 1) : ℕ) : ℚ) :=
      lt_of_lt_of_le one_pos hk1
    have hnpos : (0 : ℚ) < (others.length : ℚ) + 1 := by positivity
    have hn0 : (0 : ℚ) ≤ (others.length : ℚ) := Nat.cast_nonneg _
    have hS : 0 ≤ others.sum := List.sum_nonneg h0
    have hS2 : 0 ≤ ((sortDesc others).take 2).sum :=
      List.sum_nonneg fun x hx =>
        h0 x (mem_sortDesc.1 (List.take_subset 2 (sortDesc others) hx))
    set A : ℚ := (6 / 10) / ((min 3 (others.length + 1) : ℕ) : ℚ) +
      (4 / 10) / ((others.length : ℚ) + 1) with hA_def
    set B : ℚ := ((sortDesc others).take 2).sum * (6 / 10) /
        ((min 3 (others.length + 1) : ℕ) : ℚ) +
      others.sum * (4 / 10) / ((others.length : ℚ) + 1) with hB_def
    have hA : 0 < A := by
      rw [hA_def]
      positivity
    have hA1 : A ≤ 1 := by
      rw [hA_def]
      have h1 : (6 : ℚ) / 10 / ((min 3 (others.length + 1) : ℕ) : ℚ) ≤ 6 / 10 :=
        div_le_self (by norm_num) hk1
      have h2 : (4 : ℚ) / 10 / ((others.length : ℚ) + 1) ≤ 4 / 10 :=
        div_le_self (by norm_num) (by linarith)
      linarith
    have hB : 0 ≤ B := by
      rw [hB_def]
      have h1 : 0 ≤ ((sortDesc others).take 2).sum * (6 / 10) /
          ((min 3 (others.length + 1) : ℕ) : ℚ) :=
        div_nonneg (mul_nonneg hS2 (by norm_num)) hkpos.le
      have h2 : 0 ≤ others.sum * (4 / 10) / ((others.length : ℚ) + 1) :=
        div_nonneg (mul_nonneg hS (by norm_num)) hnpos.le
      linarith
    have hWB1 : weightedBenchmark (g1 :: others) = A * g1 + B :=
      weightedBenchmark_cons hm1
    have hWB2 : weightedBenchmark (g2 :: others) = A * g2 + B :=
      weightedBenchmark_cons hm2
    have hW12 : weightedBenchmark (g1 :: others) ≤
        weightedBenchmark (g2 :: others) := by
      rw [hWB1, hWB2]
      nlinarith
    have hW1nn : 0 ≤ weightedBenchmark (g1 :: others) := by
      rw [hWB1]
      nlinarith
    have hR : topGapRatio (g1 :: others) ≤ topGapRatio (g2 :: others) := by
      unfold topGapRatio
      rw [hWB1, hWB2, maxOtherGold_cons hm1, maxOtherGold_cons hm2]
      exact gapRatio_affine_mono hA hA1 hB hg1 h12
    have hL : levelRatio (g1 :: others) ≤ levelRatio (g2 :: others) := by
      unfold levelRatio
      rw [div_le_div_iff (by norm_num) (by norm_num)]
      nlinarith
    have hM : maxOtherGold (g1 :: others) ≤ maxOtherGold (g2 :: others) := by
      rw [maxOtherGold_cons hm1, maxOtherGold_cons hm2]
      exact h12
    have hT3 : top3Avg (g1 :: others) ≤ top3Avg (g2 :: others) := by
      rw [top3Avg_cons hm1, top3Avg_cons hm2,
        div_le_div_iff hkpos hkpos]
      nlinarith
    have hMul : competitiveMultiplier (g1 :: others) ≤
        competitiveMultiplier (g2 :: others) := by
      unfold competitiveMultiplier
      exact capabilityAdjust_mono hM hT3 (levelAdjust_mono hL
        (gapMultiplier_mono hR))
    unfold competitiveThreshold
    apply max_le_max le_rfl
    apply max_le_max
    · exact mul_le_mul hW12 hMul
        (le_trans zero_le_one (competitiveMultiplier_ge_one _))
        (le_trans hW1nn hW12)
    · rw [maxOtherGold_cons hm1, maxOtherGold_cons hm2]
      exact mul_le_mul_of_nonneg_right h12 (by norm_num)

/-- Witness for `spendable_eq_max_and_reserve_monotone`: spendable gold at
(5, 3), and reserve monotonicity when the richest opponent's balance rises
from 20M to 30M while a second opponent holds 10M. -/
theorem spendable_eq_max_and_reserve_monotone_witness :
    getSpendableGold 5 3 = max 0 (5 - 3) ∧
      getMIRVReserveThreshold true ((20000000 : ℚ) :: [10000000]) ≤
        getMIRVReserveThreshold true ((30000000 : ℚ) :: [10000000]) :=
  ⟨spendable_eq_max_and_reserve_monotone.1 5 3,
    spendable_eq_max_and_reserve_monotone.2 true [10000000] 20000000 30000000
      (by norm_num) (by norm_num) (by norm_num) (by norm_num)⟩

end OpenFront
